import Mathlib

set_option linter.unusedVariables false

/-!
Shallow embedding of the interactive constrained-input editor of the
anagrama-cli repository: the `interactiveInput` closure and its helpers
(`isLetterAvailable`, `getFilteredCommands`, `clearMenu`, `renderMenu`,
`handleKey`).  The mutable closed-over variables become an explicit
`EditorState`; each keystroke is a pure transition
`handleKey : List Char → Key → EditorState → EditorState × Option Resolution`,
where a `some` second component models the promise resolution on Enter
(after which the data listener is removed, so `run` stops there).

The few JavaScript string primitives the source uses are modelled by
explicit structural definitions over `String.data`, so that every
operation evaluates by kernel reduction.  All buffer content in this
program is ASCII, for which these models agree with the JS semantics.
-/

/-- JS `s.startsWith(pre)`: `pre` is a code-unit-wise prefix of `s`. -/
def strStartsWith (s pre : String) : Bool :=
  pre.data.isPrefixOf s.data

/-- JS `s + c`: append one character to a string. -/
def strPush (s : String) (c : Char) : String :=
  ⟨s.data ++ [c]⟩

/-- JS `s[s.length - 1]`: last character.  On the empty string the source
expression is `undefined`; every use in the source is guarded by
`input.length > 0`, so the default null character is never observable. -/
def strBack (s : String) : Char :=
  s.data.getLastD (Char.ofNat 0)

/-- JS `s.slice(0, -1)`: drop the last character. -/
def strDropRight1 (s : String) : String :=
  ⟨s.data.dropLast⟩

/-- JS `s.toLowerCase()` (ASCII range, which covers all buffer content). -/
def strToLower (s : String) : String :=
  ⟨s.data.map Char.toLower⟩

/-- One entry of the static command registry (`COMMANDS` in the source). -/
structure Command where
  name : String
  desc : String
deriving DecidableEq

/-- The fixed command registry from the source. -/
def COMMANDS : List Command :=
  [ { name := "/help", desc := "Show all commands" },
    { name := "/hint", desc := "Get a hint" },
    { name := "/exit", desc := "Return to menu" },
    { name := "/quit", desc := "Exit the app" },
    { name := "/shuffle", desc := "Shuffle the letters" } ]

/-- The result the editor resolves its promise with on Enter. -/
structure Resolution where
  input : String
  isCommand : Bool
deriving DecidableEq

/-- The mutable closure state of `interactiveInput`, made explicit. -/
structure EditorState where
  input : String
  isCommandMode : Bool
  selectedIndex : Nat
  filteredCommands : List Command
  menuVisible : Bool
  renderedMenuLines : Nat
  usedIndices : List Nat
  ctrlCShown : Bool
deriving DecidableEq

/-- Initial closure state of `interactiveInput`. -/
def initState : EditorState :=
  { input := "", isCommandMode := false, selectedIndex := 0,
    filteredCommands := [], menuVisible := false, renderedMenuLines := 0,
    usedIndices := [], ctrlCShown := false }

/-- `getFilteredCommands` from the source: the registry entries whose name
starts with the buffer, or `[]` outside command mode. -/
def getFilteredCommands (isCommandMode : Bool) (input : String) : List Command :=
  if isCommandMode then COMMANDS.filter (fun c => strStartsWith c.name input) else []

/-- `isLetterAvailable` from the source: first pool index whose letter
matches case-insensitively and is not yet consumed (`-1` becomes `none`).
The JS `usedIndices` is a `Set` iterated in insertion order, modelled as a
duplicate-free list. -/
def isLetterAvailable (letter : Char) (pool : List Char) (usedIndices : List Nat) : Option Nat :=
  (pool.enum.find? (fun p => !usedIndices.contains p.1 && p.2.toUpper == letter.toUpper)).map
    (fun p => p.1)

/-- The backspace release loop from the source: delete the first consumed
index (in insertion order) whose pool letter matches the removed character
case-insensitively; no-op when none matches.  An out-of-range pool access
(impossible for indices produced by `isLetterAvailable`) is modelled with a
null placeholder character. -/
def releaseFirst (lastChar : Char) (pool : List Char) (usedIndices : List Nat) : List Nat :=
  usedIndices.eraseP (fun idx => (pool.getD idx (Char.ofNat 0)).toUpper == lastChar.toUpper)

/-- State effect of `clearMenu` from the source (the terminal writes are
modelled separately by `clearMenuScr`). -/
def clearMenuSt (s : EditorState) : EditorState :=
  if s.renderedMenuLines = 0 then s
  else { s with menuVisible := false, renderedMenuLines := 0 }

/-- State effect of `renderMenu` from the source: recompute the filtered
list cache, then record zero lines when it is empty and one line per entry
otherwise. -/
def renderMenuSt (s : EditorState) : EditorState :=
  if (getFilteredCommands s.isCommandMode s.input).isEmpty then
    { s with filteredCommands := getFilteredCommands s.isCommandMode s.input,
             menuVisible := false, renderedMenuLines := 0 }
  else
    { s with filteredCommands := getFilteredCommands s.isCommandMode s.input,
             menuVisible := true,
             renderedMenuLines := (getFilteredCommands s.isCommandMode s.input).length }

/-- The `ctrlCShown` reset that `handleKey` performs on any key other than
Ctrl-C. -/
def resetCtrlC (s : EditorState) : EditorState :=
  if s.ctrlCShown then { s with ctrlCShown := false } else s

/-- Up-arrow branch of `handleKey` (JS `selectedIndex <= 0` equals `= 0`
on `Nat`, the index never being negative in the source either). -/
def upStep (s : EditorState) : EditorState :=
  if s.isCommandMode ∧ 0 < s.filteredCommands.length then
    renderMenuSt { s with
      selectedIndex :=
        if s.selectedIndex = 0 then s.filteredCommands.length - 1
        else s.selectedIndex - 1 }
  else s

/-- Down-arrow branch of `handleKey`. -/
def downStep (s : EditorState) : EditorState :=
  if s.isCommandMode ∧ 0 < s.filteredCommands.length then
    renderMenuSt { s with
      selectedIndex :=
        if s.filteredCommands.length - 1 ≤ s.selectedIndex then 0
        else s.selectedIndex + 1 }
  else s

/-- Tab branch of `handleKey`: autocomplete with the selected cached entry
(the JS `selectedIndex >= 0` guard is vacuous on `Nat`). -/
def tabStep (s : EditorState) : EditorState :=
  if s.isCommandMode ∧ s.selectedIndex < s.filteredCommands.length then
    renderMenuSt
      { clearMenuSt s with
        input := (s.filteredCommands.getD s.selectedIndex { name := "", desc := "" }).name,
        selectedIndex := 0 }
  else s

/-- Enter branch of `handleKey`: optional selection replacement, then the
promise resolves with the lowercased buffer and the mode flag. -/
def enterStep (s : EditorState) : EditorState × Option Resolution :=
  let input1 :=
    if s.isCommandMode ∧ s.selectedIndex < s.filteredCommands.length then
      (s.filteredCommands.getD s.selectedIndex { name := "", desc := "" }).name
    else s.input
  (clearMenuSt { s with input := input1 },
   some { input := strToLower input1, isCommand := s.isCommandMode })

/-- Backspace branch of `handleKey`. -/
def backspaceStep (pool : List Char) (s : EditorState) : EditorState :=
  if 0 < s.input.length then
    let s1 := clearMenuSt s
    let lastChar := strBack s1.input
    let input1 := strDropRight1 s1.input
    let exitCmd := input1 = "" ∨ strStartsWith input1 "/" = false
    let s2 := { s1 with
      input := input1,
      selectedIndex := 0,
      isCommandMode := if exitCmd then false else s1.isCommandMode,
      filteredCommands := if exitCmd then [] else s1.filteredCommands,
      usedIndices :=
        if s1.isCommandMode = false ∧ lastChar ≠ '/' then
          releaseFirst lastChar pool s1.usedIndices
        else s1.usedIndices }
    if s2.isCommandMode then renderMenuSt s2 else s2
  else s

/-- Escape branch of `handleKey`: soft reset. -/
def escapeStep (s : EditorState) : EditorState :=
  { clearMenuSt s with
    input := "", isCommandMode := false, selectedIndex := 0,
    filteredCommands := [], usedIndices := [] }

/-- Fall-through printable-character branches of `handleKey`: command
start, command-mode append, Word-mode constrained letter. -/
def charStep (pool : List Char) (c : Char) (s : EditorState) : EditorState :=
  if c = '/' ∧ s.input = "" then
    renderMenuSt { s with isCommandMode := true, input := "/", selectedIndex := 0 }
  else if s.isCommandMode then
    renderMenuSt { clearMenuSt s with input := strPush s.input c, selectedIndex := 0 }
  else if c.isAlpha then
    match isLetterAvailable c pool s.usedIndices with
    | some idx =>
        { s with usedIndices := s.usedIndices ++ [idx],
                 input := strPush s.input c.toUpper }
    | none => s
  else s

/-- A raw key event.  The multi-character arrow sequences get their own
constructors; every other key the source dispatches on is a single
character and is compared inside `handleKey` exactly as the source does. -/
inductive Key where
  | up
  | down
  | chr (c : Char)
deriving DecidableEq

/-- `handleKey` from the source, as a pure transition.  A `some` second
component is the promise resolution (Enter).  The source dispatches on
the raw key string; the Ctrl-C test comes first, every other key first
resets the `ctrlCShown` notice flag. -/
def handleKey (pool : List Char) (k : Key) (s : EditorState) : EditorState × Option Resolution :=
  match k with
  | Key.up => (upStep (resetCtrlC s), none)
  | Key.down => (downStep (resetCtrlC s), none)
  | Key.chr c =>
    if c = Char.ofNat 3 then
      (if s.ctrlCShown then s else { clearMenuSt s with ctrlCShown := true }, none)
    else
      let s := resetCtrlC s
      if c = '\t' then (tabStep s, none)
      else if c = '\r' ∨ c = '\n' then enterStep s
      else if c = Char.ofNat 0x7F ∨ c = Char.ofNat 8 then (backspaceStep pool s, none)
      else if c = Char.ofNat 0x1B then (escapeStep s, none)
      else (charStep pool c s, none)

/-- Feed a keystroke sequence to the editor.  Processing stops at the
first resolution, because the source removes the data listener before
resolving. -/
def run (pool : List Char) : List Key → EditorState → EditorState × Option Resolution
  | [], s => (s, none)
  | k :: ks, s =>
    match handleKey pool k s with
    | (s1, some r) => (s1, some r)
    | (s1, none) => run pool ks s1

/-- Selection-index coherence invariant: in Command mode the cached
filtered list is fresh (it is recomputed by `renderMenu` after every
buffer change), in Word mode it is empty, and whenever it is nonempty the
selection index is inside it. -/
def SelInv (s : EditorState) : Prop :=
  (s.isCommandMode = true → s.filteredCommands = getFilteredCommands true s.input) ∧
  (s.isCommandMode = false → s.filteredCommands = []) ∧
  (s.filteredCommands ≠ [] → s.selectedIndex < s.filteredCommands.length)

/-! Screen model for the overlay renderer of the newer evolution
(`clearBelow` / `clearMenu` / `renderMenu`): the terminal lines below the
input line, addressed relatively (line 0 is the first line below the
cursor).  `\x1b[2K` on a line makes it empty; writing an entry replaces
the line content. -/

/-- The terminal lines below the input line. -/
def Screen : Type := Nat → String

/-- Replace the content of one line below the cursor. -/
def setLine (i : Nat) (content : String) (sc : Screen) : Screen :=
  fun j => if j = i then content else sc j

/-- `clearBelow` from the source: move down `n` lines, erasing each with
`\x1b[2K`, then move back up. -/
def clearBelow (n : Nat) (sc : Screen) : Screen :=
  (List.range n).foldl (fun acc i => setLine i "" acc) sc

/-- JS `s.padEnd(n)`. -/
def padEnd (s : String) (n : Nat) : String :=
  ⟨s.data ++ List.replicate (n - s.data.length) ' '⟩

/-- The text content of one rendered menu line (`renderMenu` writes the
same characters for selected and unselected entries; the highlight is
pure color and is not part of the line-content model). -/
def menuLineText (cmd : Command) : String :=
  "  " ++ padEnd cmd.name 12 ++ cmd.desc

/-- The `renderMenu` write loop: entry `i` of the filtered list lands on
line `i` below the cursor, after that line is erased. -/
def writeMenuLines : List Command → Nat → Screen → Screen
  | [], _, sc => sc
  | cmd :: rest, i, sc => writeMenuLines rest (i + 1) (setLine i (menuLineText cmd) sc)

/-- Screen effect of `renderMenu` from the source: erase the previously
recorded lines, then write one line per filtered entry. -/
def renderMenuScr (s : EditorState) (sc : Screen) : Screen :=
  let filtered := getFilteredCommands s.isCommandMode s.input
  let sc1 := clearBelow s.renderedMenuLines sc
  if filtered.isEmpty then sc1 else writeMenuLines filtered 0 sc1

/-- Screen effect of `clearMenu` from the source. -/
def clearMenuScr (s : EditorState) (sc : Screen) : Screen :=
  if s.renderedMenuLines = 0 then sc else clearBelow s.renderedMenuLines sc

/-! Projection lemmas for the state-effect helpers. -/

@[simp] theorem clearMenuSt_input (s : EditorState) : (clearMenuSt s).input = s.input := by
  unfold clearMenuSt; split <;> rfl

@[simp] theorem clearMenuSt_isCommandMode (s : EditorState) :
    (clearMenuSt s).isCommandMode = s.isCommandMode := by
  unfold clearMenuSt; split <;> rfl

@[simp] theorem clearMenuSt_selectedIndex (s : EditorState) :
    (clearMenuSt s).selectedIndex = s.selectedIndex := by
  unfold clearMenuSt; split <;> rfl

@[simp] theorem clearMenuSt_filteredCommands (s : EditorState) :
    (clearMenuSt s).filteredCommands = s.filteredCommands := by
  unfold clearMenuSt; split <;> rfl

@[simp] theorem clearMenuSt_usedIndices (s : EditorState) :
    (clearMenuSt s).usedIndices = s.usedIndices := by
  unfold clearMenuSt; split <;> rfl

@[simp] theorem clearMenuSt_ctrlCShown (s : EditorState) :
    (clearMenuSt s).ctrlCShown = s.ctrlCShown := by
  unfold clearMenuSt; split <;> rfl

@[simp] theorem clearMenuSt_renderedMenuLines (s : EditorState) :
    (clearMenuSt s).renderedMenuLines = 0 := by
  unfold clearMenuSt; split
  case isTrue h => exact h
  case isFalse h => rfl

@[simp] theorem renderMenuSt_input (s : EditorState) : (renderMenuSt s).input = s.input := by
  unfold renderMenuSt; split <;> rfl

@[simp] theorem renderMenuSt_isCommandMode (s : EditorState) :
    (renderMenuSt s).isCommandMode = s.isCommandMode := by
  unfold renderMenuSt; split <;> rfl

@[simp] theorem renderMenuSt_selectedIndex (s : EditorState) :
    (renderMenuSt s).selectedIndex = s.selectedIndex := by
  unfold renderMenuSt; split <;> rfl

@[simp] theorem renderMenuSt_usedIndices (s : EditorState) :
    (renderMenuSt s).usedIndices = s.usedIndices := by
  unfold renderMenuSt; split <;> rfl

@[simp] theorem renderMenuSt_ctrlCShown (s : EditorState) :
    (renderMenuSt s).ctrlCShown = s.ctrlCShown := by
  unfold renderMenuSt; split <;> rfl

@[simp] theorem renderMenuSt_filteredCommands (s : EditorState) :
    (renderMenuSt s).filteredCommands = getFilteredCommands s.isCommandMode s.input := by
  unfold renderMenuSt; split <;> rfl

@[simp] theorem renderMenuSt_renderedMenuLines (s : EditorState) :
    (renderMenuSt s).renderedMenuLines =
      (getFilteredCommands s.isCommandMode s.input).length := by
  unfold renderMenuSt
  cases h : getFilteredCommands s.isCommandMode s.input <;> simp [h]

@[simp] theorem resetCtrlC_input (s : EditorState) : (resetCtrlC s).input = s.input := by
  unfold resetCtrlC; split <;> rfl

@[simp] theorem resetCtrlC_isCommandMode (s : EditorState) :
    (resetCtrlC s).isCommandMode = s.isCommandMode := by
  unfold resetCtrlC; split <;> rfl

@[simp] theorem resetCtrlC_selectedIndex (s : EditorState) :
    (resetCtrlC s).selectedIndex = s.selectedIndex := by
  unfold resetCtrlC; split <;> rfl

@[simp] theorem resetCtrlC_filteredCommands (s : EditorState) :
    (resetCtrlC s).filteredCommands = s.filteredCommands := by
  unfold resetCtrlC; split <;> rfl

@[simp] theorem resetCtrlC_usedIndices (s : EditorState) :
    (resetCtrlC s).usedIndices = s.usedIndices := by
  unfold resetCtrlC; split <;> rfl

@[simp] theorem resetCtrlC_renderedMenuLines (s : EditorState) :
    (resetCtrlC s).renderedMenuLines = s.renderedMenuLines := by
  unfold resetCtrlC; split <;> rfl

@[simp] theorem resetCtrlC_menuVisible (s : EditorState) :
    (resetCtrlC s).menuVisible = s.menuVisible := by
  unfold resetCtrlC; split <;> rfl

/-! Unfolding lemmas for `handleKey`, one per key class of the source's
dispatch. -/

theorem handleKey_up (pool : List Char) (s : EditorState) :
    handleKey pool Key.up s = (upStep (resetCtrlC s), none) := rfl

theorem handleKey_down (pool : List Char) (s : EditorState) :
    handleKey pool Key.down s = (downStep (resetCtrlC s), none) := rfl

theorem handleKey_ctrlC (pool : List Char) (s : EditorState) :
    handleKey pool (Key.chr (Char.ofNat 3)) s =
      (if s.ctrlCShown then s else { clearMenuSt s with ctrlCShown := true }, none) := by
  simp only [handleKey]
  simp

theorem handleKey_tab (pool : List Char) (s : EditorState) :
    handleKey pool (Key.chr '\t') s = (tabStep (resetCtrlC s), none) := by
  simp only [handleKey]
  simp

theorem handleKey_enterCR (pool : List Char) (s : EditorState) :
    handleKey pool (Key.chr '\r') s = enterStep (resetCtrlC s) := by
  simp only [handleKey]
  simp

theorem handleKey_enterLF (pool : List Char) (s : EditorState) :
    handleKey pool (Key.chr '\n') s = enterStep (resetCtrlC s) := by
  simp only [handleKey]
  simp

theorem handleKey_backspace (pool : List Char) (s : EditorState) :
    handleKey pool (Key.chr (Char.ofNat 0x7F)) s = (backspaceStep pool (resetCtrlC s), none) := by
  simp only [handleKey]
  simp

theorem handleKey_escape (pool : List Char) (s : EditorState) :
    handleKey pool (Key.chr (Char.ofNat 0x1B)) s = (escapeStep (resetCtrlC s), none) := by
  simp only [handleKey]
  simp

theorem handleKey_backspaceBS (pool : List Char) (s : EditorState) :
    handleKey pool (Key.chr (Char.ofNat 8)) s = (backspaceStep pool (resetCtrlC s), none) := by
  simp only [handleKey]
  simp

theorem handleKey_chr (pool : List Char) (c : Char) (s : EditorState)
    (h1 : c ≠ Char.ofNat 3) (h2 : c ≠ '\t') (h3 : c ≠ '\r') (h4 : c ≠ '\n')
    (h5 : c ≠ Char.ofNat 0x7F) (h6 : c ≠ Char.ofNat 8) (h7 : c ≠ Char.ofNat 0x1B) :
    handleKey pool (Key.chr c) s = (charStep pool c (resetCtrlC s), none) := by
  simp only [handleKey]
  rw [if_neg h1, if_neg h2, if_neg (not_or.mpr ⟨h3, h4⟩), if_neg (not_or.mpr ⟨h5, h6⟩),
    if_neg h7]

/-- An ASCII letter is none of the specially dispatched key characters and
is not the command prefix. -/
theorem isAlpha_ne_special (c : Char) (h : c.isAlpha = true) :
    c ≠ Char.ofNat 3 ∧ c ≠ '\t' ∧ c ≠ '\r' ∧ c ≠ '\n' ∧
    c ≠ Char.ofNat 0x7F ∧ c ≠ Char.ofNat 8 ∧ c ≠ Char.ofNat 0x1B ∧ c ≠ '/' := by
  refine ⟨?_, ?_, ?_, ?_, ?_, ?_, ?_, ?_⟩ <;>
    first
    | exact fun hc => absurd (hc ▸ h) (by decide)

theorem handleKey_chr_alpha (pool : List Char) (c : Char) (s : EditorState)
    (h : c.isAlpha = true) :
    handleKey pool (Key.chr c) s = (charStep pool c (resetCtrlC s), none) := by
  obtain ⟨h1, h2, h3, h4, h5, h6, h7, _⟩ := isAlpha_ne_special c h
  exact handleKey_chr pool c s h1 h2 h3 h4 h5 h6 h7

/-! Projection lemmas for the per-key branch functions. -/

@[simp] theorem upStep_input (s : EditorState) : (upStep s).input = s.input := by
  unfold upStep; split <;> simp

@[simp] theorem upStep_isCommandMode (s : EditorState) :
    (upStep s).isCommandMode = s.isCommandMode := by
  unfold upStep; split <;> simp

@[simp] theorem upStep_usedIndices (s : EditorState) :
    (upStep s).usedIndices = s.usedIndices := by
  unfold upStep; split <;> simp

@[simp] theorem downStep_input (s : EditorState) : (downStep s).input = s.input := by
  unfold downStep; split <;> simp

@[simp] theorem downStep_isCommandMode (s : EditorState) :
    (downStep s).isCommandMode = s.isCommandMode := by
  unfold downStep; split <;> simp

@[simp] theorem downStep_usedIndices (s : EditorState) :
    (downStep s).usedIndices = s.usedIndices := by
  unfold downStep; split <;> simp

@[simp] theorem tabStep_isCommandMode (s : EditorState) :
    (tabStep s).isCommandMode = s.isCommandMode := by
  unfold tabStep; split <;> simp

@[simp] theorem tabStep_usedIndices (s : EditorState) :
    (tabStep s).usedIndices = s.usedIndices := by
  unfold tabStep; split <;> simp

@[simp] theorem escapeStep_input (s : EditorState) : (escapeStep s).input = "" := rfl

@[simp] theorem escapeStep_isCommandMode (s : EditorState) :
    (escapeStep s).isCommandMode = false := rfl

@[simp] theorem escapeStep_selectedIndex (s : EditorState) :
    (escapeStep s).selectedIndex = 0 := rfl

@[simp] theorem escapeStep_filteredCommands (s : EditorState) :
    (escapeStep s).filteredCommands = [] := rfl

@[simp] theorem escapeStep_usedIndices (s : EditorState) :
    (escapeStep s).usedIndices = [] := rfl

@[simp] theorem enterStep_fst_isCommandMode (s : EditorState) :
    (enterStep s).1.isCommandMode = s.isCommandMode := by
  unfold enterStep; simp

@[simp] theorem enterStep_fst_usedIndices (s : EditorState) :
    (enterStep s).1.usedIndices = s.usedIndices := by
  unfold enterStep; simp

@[simp] theorem enterStep_fst_selectedIndex (s : EditorState) :
    (enterStep s).1.selectedIndex = s.selectedIndex := by
  unfold enterStep; simp

@[simp] theorem enterStep_fst_filteredCommands (s : EditorState) :
    (enterStep s).1.filteredCommands = s.filteredCommands := by
  unfold enterStep; simp

/-- A nonempty string has positive length. -/
theorem strLength_pos (s : String) (h : s ≠ "") : 0 < s.length := by
  cases s with
  | mk data =>
    cases data with
    | nil => exact absurd rfl h
    | cons a l => simp [String.length]

/-- Characterization of the backspace branch on a nonempty buffer:
resulting mode. -/
theorem backspaceStep_isCommandMode (pool : List Char) (s : EditorState)
    (hlen : 0 < s.input.length) :
    (backspaceStep pool s).isCommandMode =
      if strDropRight1 s.input = "" ∨ strStartsWith (strDropRight1 s.input) "/" = false
      then false else s.isCommandMode := by
  simp only [backspaceStep, clearMenuSt_input, clearMenuSt_isCommandMode]
  rw [if_pos hlen]
  by_cases hex : strDropRight1 s.input = "" ∨ strStartsWith (strDropRight1 s.input) "/" = false
  · rw [if_pos hex]
    split <;> simp
  · rw [if_neg hex]
    split <;> simp

/-- Characterization of the backspace branch on a nonempty buffer:
resulting buffer. -/
theorem backspaceStep_input (pool : List Char) (s : EditorState)
    (hlen : 0 < s.input.length) :
    (backspaceStep pool s).input = strDropRight1 s.input := by
  simp only [backspaceStep, clearMenuSt_input, clearMenuSt_isCommandMode]
  rw [if_pos hlen]
  by_cases hex : strDropRight1 s.input = "" ∨ strStartsWith (strDropRight1 s.input) "/" = false
  · rw [if_pos hex]
    split <;> simp
  · rw [if_neg hex]
    split <;> simp

/-- Characterization of the backspace branch on a nonempty buffer:
resulting selection index. -/
theorem backspaceStep_selectedIndex (pool : List Char) (s : EditorState)
    (hlen : 0 < s.input.length) :
    (backspaceStep pool s).selectedIndex = 0 := by
  simp only [backspaceStep, clearMenuSt_input, clearMenuSt_isCommandMode]
  rw [if_pos hlen]
  by_cases hex : strDropRight1 s.input = "" ∨ strStartsWith (strDropRight1 s.input) "/" = false
  · rw [if_pos hex]
    split <;> simp
  · rw [if_neg hex]
    split <;> simp

/-- Characterization of the backspace branch on a nonempty buffer:
resulting consumed set. -/
theorem backspaceStep_usedIndices (pool : List Char) (s : EditorState)
    (hlen : 0 < s.input.length) :
    (backspaceStep pool s).usedIndices =
      if s.isCommandMode = false ∧ strBack s.input ≠ '/' then
        releaseFirst (strBack s.input) pool s.usedIndices
      else s.usedIndices := by
  simp only [backspaceStep, clearMenuSt_input, clearMenuSt_isCommandMode,
    clearMenuSt_usedIndices]
  rw [if_pos hlen]
  by_cases hex : strDropRight1 s.input = "" ∨ strStartsWith (strDropRight1 s.input) "/" = false
  · rw [if_pos hex]
    split <;> simp
  · rw [if_neg hex]
    split <;> simp

/-- Backspace on an empty buffer is a no-op. -/
theorem backspaceStep_empty (pool : List Char) (s : EditorState)
    (hlen : s.input = "") : backspaceStep pool s = s := by
  unfold backspaceStep
  rw [if_neg (by rw [hlen]; decide)]

/-- In Word mode the printable-character branch enters Command mode exactly
on the prefix character with an empty buffer. -/
theorem charStep_isCommandMode_iff (pool : List Char) (c : Char) (s : EditorState)
    (hmode : s.isCommandMode = false) :
    ((charStep pool c s).isCommandMode = true) ↔ (c = '/' ∧ s.input = "") := by
  unfold charStep
  by_cases h : c = '/' ∧ s.input = ""
  · rw [if_pos h]
    simp [h]
  · rw [if_neg h, if_neg (by simp [hmode])]
    split
    · split <;> simp [hmode, h]
    · simp [hmode, h]

/-- C7: pressing Escape in any editor state (Word mode with a partial
buffer, or Command mode with a filtered list open) resets the buffer to
the empty string, empties the consumed set, resets the selection index to
0 and forces Word mode. -/
theorem escape_soft_reset (pool : List Char) (s : EditorState) :
    (handleKey pool (Key.chr (Char.ofNat 0x1B)) s).1.input = "" ∧
    (handleKey pool (Key.chr (Char.ofNat 0x1B)) s).1.usedIndices = [] ∧
    (handleKey pool (Key.chr (Char.ofNat 0x1B)) s).1.selectedIndex = 0 ∧
    (handleKey pool (Key.chr (Char.ofNat 0x1B)) s).1.isCommandMode = false := by
  rw [handleKey_escape]
  exact ⟨rfl, rfl, rfl, rfl⟩

/-- C3: with pool "AAB", typing "A","A" consumes both A-indices; one
backspace frees exactly one consumed A-index; a subsequent "A" keystroke
succeeds (appended to the buffer, consuming an index again); a further
"A" keystroke fails, leaving the whole state unchanged. -/
theorem pool_AAB_duplicate_backspace_scenario :
    (run ['A', 'A', 'B'] [Key.chr 'A', Key.chr 'A'] initState).1.usedIndices = [0, 1] ∧
    (run ['A', 'A', 'B'] [Key.chr 'A', Key.chr 'A'] initState).1.input = "AA" ∧
    (run ['A', 'A', 'B'] [Key.chr 'A', Key.chr 'A', Key.chr (Char.ofNat 0x7F)]
        initState).1.usedIndices = [1] ∧
    (run ['A', 'A', 'B'] [Key.chr 'A', Key.chr 'A', Key.chr (Char.ofNat 0x7F)]
        initState).1.input = "A" ∧
    (run ['A', 'A', 'B'] [Key.chr 'A', Key.chr 'A', Key.chr (Char.ofNat 0x7F), Key.chr 'A']
        initState).1.input = "AA" ∧
    (run ['A', 'A', 'B'] [Key.chr 'A', Key.chr 'A', Key.chr (Char.ofNat 0x7F), Key.chr 'A']
        initState).1.usedIndices = [1, 0] ∧
    (run ['A', 'A', 'B']
        [Key.chr 'A', Key.chr 'A', Key.chr (Char.ofNat 0x7F), Key.chr 'A', Key.chr 'A']
        initState).1 =
      (run ['A', 'A', 'B'] [Key.chr 'A', Key.chr 'A', Key.chr (Char.ofNat 0x7F), Key.chr 'A']
        initState).1 := by
  decide

/-- C5: in Word mode, typing a letter that has no available (unconsumed,
case-insensitively matching) instance in the pool leaves the buffer, the
consumed set, the mode and the selection index unchanged and resolves
nothing (the keystroke is silently absorbed, no error channel exists). -/
theorem unavailable_letter_ignored (pool : List Char) (s : EditorState) (c : Char)
    (hmode : s.isCommandMode = false) (halpha : c.isAlpha = true)
    (havail : isLetterAvailable c pool s.usedIndices = none) :
    (handleKey pool (Key.chr c) s).1.input = s.input ∧
    (handleKey pool (Key.chr c) s).1.usedIndices = s.usedIndices ∧
    (handleKey pool (Key.chr c) s).1.isCommandMode = false ∧
    (handleKey pool (Key.chr c) s).1.selectedIndex = s.selectedIndex ∧
    (handleKey pool (Key.chr c) s).2 = none := by
  obtain ⟨h1, h2, h3, h4, h5, h6, h7, h8⟩ := isAlpha_ne_special c halpha
  rw [handleKey_chr pool c s h1 h2 h3 h4 h5 h6 h7]
  unfold charStep
  rw [if_neg (fun hc => h8 hc.1), if_neg (by simp [hmode]), if_pos halpha]
  simp only [resetCtrlC_usedIndices, havail]
  exact ⟨by simp, by simp, by simp [hmode], by simp, by simp⟩

/-- Witness for C5 at the spec's own example: pool "CARTE", key "Z". -/
theorem unavailable_letter_ignored_witness :
    (handleKey ['C', 'A', 'R', 'T', 'E'] (Key.chr 'Z') initState).1.input = initState.input ∧
    (handleKey ['C', 'A', 'R', 'T', 'E'] (Key.chr 'Z') initState).1.usedIndices =
      initState.usedIndices ∧
    (handleKey ['C', 'A', 'R', 'T', 'E'] (Key.chr 'Z') initState).1.isCommandMode = false ∧
    (handleKey ['C', 'A', 'R', 'T', 'E'] (Key.chr 'Z') initState).1.selectedIndex =
      initState.selectedIndex ∧
    (handleKey ['C', 'A', 'R', 'T', 'E'] (Key.chr 'Z') initState).2 = none :=
  unavailable_letter_ignored ['C', 'A', 'R', 'T', 'E'] initState 'Z' rfl (by decide) (by decide)

/-- C4: the mode switches to Command exactly when the command prefix "/"
is typed on an empty buffer; typing "/" in Word mode with a nonempty
buffer changes neither buffer, mode nor consumed set; and backspace in
Command mode returns to Word exactly when the shortened buffer is empty
or no longer starts with "/". -/
theorem command_mode_entry_exit (pool : List Char) :
    (∀ s k, s.isCommandMode = false →
      ((handleKey pool k s).1.isCommandMode = true ↔ (k = Key.chr '/' ∧ s.input = ""))) ∧
    (∀ s, s.isCommandMode = false → s.input ≠ "" →
      (handleKey pool (Key.chr '/') s).1.input = s.input ∧
      (handleKey pool (Key.chr '/') s).1.isCommandMode = false ∧
      (handleKey pool (Key.chr '/') s).1.usedIndices = s.usedIndices) ∧
    (∀ s, s.isCommandMode = true → s.input ≠ "" →
      ((handleKey pool (Key.chr (Char.ofNat 0x7F)) s).1.isCommandMode = false ↔
        (strDropRight1 s.input = "" ∨ strStartsWith (strDropRight1 s.input) "/" = false))) := by
  refine ⟨?_, ?_, ?_⟩
  · intro s k hmode
    cases k with
    | up => rw [handleKey_up]; simp [hmode]
    | down => rw [handleKey_down]; simp [hmode]
    | chr c =>
      by_cases h1 : c = Char.ofNat 3
      · subst h1
        rw [handleKey_ctrlC]
        constructor
        · intro h
          exfalso
          revert h
          split <;> simp [hmode]
        · rintro ⟨hk, -⟩
          exact absurd hk (by decide)
      · by_cases h2 : c = '\t'
        · subst h2; rw [handleKey_tab]; simp [hmode]
        · by_cases h3 : c = '\r'
          · subst h3; rw [handleKey_enterCR]; simp [hmode]
          · by_cases h4 : c = '\n'
            · subst h4; rw [handleKey_enterLF]; simp [hmode]
            · by_cases h5 : c = Char.ofNat 0x7F
              · subst h5
                rw [handleKey_backspace]
                constructor
                · intro h
                  exfalso
                  by_cases hemp : (resetCtrlC s).input = ""
                  · rw [backspaceStep_empty pool _ hemp] at h
                    simp [hmode] at h
                  · rw [backspaceStep_isCommandMode pool _ (strLength_pos _ hemp)] at h
                    revert h
                    split <;> simp [hmode]
                · rintro ⟨hk, -⟩
                  exact absurd hk (by decide)
              · by_cases h6 : c = Char.ofNat 8
                · subst h6
                  rw [handleKey_backspaceBS]
                  constructor
                  · intro h
                    exfalso
                    by_cases hemp : (resetCtrlC s).input = ""
                    · rw [backspaceStep_empty pool _ hemp] at h
                      simp [hmode] at h
                    · rw [backspaceStep_isCommandMode pool _ (strLength_pos _ hemp)] at h
                      revert h
                      split <;> simp [hmode]
                  · rintro ⟨hk, -⟩
                    exact absurd hk (by decide)
                · by_cases h7 : c = Char.ofNat 0x1B
                  · subst h7; rw [handleKey_escape]; simp [hmode]
                  · rw [handleKey_chr pool c s h1 h2 h3 h4 h5 h6 h7]
                    rw [charStep_isCommandMode_iff pool c (resetCtrlC s) (by simp [hmode])]
                    simp
  · intro s hmode hne
    rw [handleKey_chr pool '/' s (by decide) (by decide) (by decide) (by decide) (by decide)
      (by decide) (by decide)]
    unfold charStep
    rw [if_neg (fun hc => hne (by simpa using hc.2)), if_neg (by simp [hmode]),
      if_neg (by decide)]
    exact ⟨by simp, by simp [hmode], by simp⟩
  · intro s hmode hne
    rw [handleKey_backspace]
    have hlen : 0 < (resetCtrlC s).input.length := by
      simp [strLength_pos s.input hne]
    rw [backspaceStep_isCommandMode pool _ hlen]
    simp only [resetCtrlC_input, resetCtrlC_isCommandMode, hmode]
    by_cases hex : strDropRight1 s.input = "" ∨ strStartsWith (strDropRight1 s.input) "/" = false
    · rw [if_pos hex]
      simp [hex]
    · rw [if_neg hex]
      simp [hex]

/-- Witness for C4: with an empty buffer, "/" enters Command mode. -/
theorem command_mode_entry_exit_witness :
    (handleKey ['A'] (Key.chr '/') initState).1.isCommandMode = true := by
  refine ((command_mode_entry_exit ['A']).1 initState (Key.chr '/') rfl).mpr ⟨rfl, ?_⟩
  rfl

/-- C2 counterexample: with pool "A", typing "a" then Enter leaves the
final buffer "A" but the editor resolves with "a" — the resolved string is
not the literal buffer content, because the Enter branch lowercases it. -/
theorem resolve_not_literal_counterexample :
    (run ['A'] [Key.chr 'a', Key.chr '\r'] initState).2 =
      some { input := "a", isCommand := false } ∧
    (run ['A'] [Key.chr 'a', Key.chr '\r'] initState).1.input = "A" ∧
    ("a" : String) ≠ "A" := by
  decide

/-- C2 (amended): on Enter (either "\r" or "\n") the editor resolves with
the final buffer — after any Command-mode selection replacement —
converted to lowercase, together with the command-mode flag. -/
theorem resolve_returns_lowercased_buffer (pool : List Char) (s : EditorState) :
    (handleKey pool (Key.chr '\r') s).1.input =
      (if s.isCommandMode ∧ s.selectedIndex < s.filteredCommands.length then
        (s.filteredCommands.getD s.selectedIndex { name := "", desc := "" }).name
       else s.input) ∧
    (handleKey pool (Key.chr '\r') s).2 =
      some
        { input :=
            strToLower
              (if s.isCommandMode ∧ s.selectedIndex < s.filteredCommands.length then
                (s.filteredCommands.getD s.selectedIndex { name := "", desc := "" }).name
               else s.input),
          isCommand := s.isCommandMode } ∧
    (handleKey pool (Key.chr '\n') s).2 =
      some
        { input :=
            strToLower
              (if s.isCommandMode ∧ s.selectedIndex < s.filteredCommands.length then
                (s.filteredCommands.getD s.selectedIndex { name := "", desc := "" }).name
               else s.input),
          isCommand := s.isCommandMode } := by
  rw [handleKey_enterCR, handleKey_enterLF]
  unfold enterStep
  simp only [resetCtrlC_isCommandMode, resetCtrlC_selectedIndex, resetCtrlC_filteredCommands,
    resetCtrlC_input]
  refine ⟨?_, ?_, ?_⟩ <;> simp

/-- C8: in Command mode, Tab with the selection index inside the cached
filtered list replaces the buffer with the selected entry's name; in
particular after typing "/", "h" the buffer "/h" becomes exactly "/help"
(the first matching registry entry). -/
theorem tab_autocomplete_selected (pool : List Char) :
    (∀ s : EditorState, s.isCommandMode = true →
      s.selectedIndex < s.filteredCommands.length →
      (handleKey pool (Key.chr '\t') s).1.input =
        (s.filteredCommands.getD s.selectedIndex { name := "", desc := "" }).name) ∧
    (run ['C', 'A', 'R', 'T', 'E'] [Key.chr '/', Key.chr 'h', Key.chr '\t']
        initState).1.input = "/help" := by
  constructor
  · intro s hmode hidx
    rw [handleKey_tab]
    unfold tabStep
    rw [if_pos (by simp [hmode, hidx])]
    simp
  · decide

/-- Witness for C8 applied at the concrete state reached by typing "/h". -/
theorem tab_autocomplete_selected_witness :
    (handleKey ['C', 'A', 'R', 'T', 'E'] (Key.chr '\t')
        (run ['C', 'A', 'R', 'T', 'E'] [Key.chr '/', Key.chr 'h'] initState).1).1.input =
      ((run ['C', 'A', 'R', 'T', 'E'] [Key.chr '/', Key.chr 'h']
          initState).1.filteredCommands.getD
        (run ['C', 'A', 'R', 'T', 'E'] [Key.chr '/', Key.chr 'h'] initState).1.selectedIndex
        { name := "", desc := "" }).name :=
  (tab_autocomplete_selected ['C', 'A', 'R', 'T', 'E']).1
    (run ['C', 'A', 'R', 'T', 'E'] [Key.chr '/', Key.chr 'h'] initState).1
    (by decide) (by decide)

/-- Every registry name is already lowercase, so lowercasing fixes it. -/
theorem commands_name_toLower (c : Command) (hc : c ∈ COMMANDS) :
    strToLower c.name = c.name := by
  fin_cases hc <;> decide

/-- C9: on Enter in Command mode with the selection index inside the
cached filtered list (whose entries come from the registry), the buffer is
first replaced with the selected command's name and the editor resolves
with that buffer and a flag that is true; in general the resolution flag
equals the Command-mode flag at the moment Enter is pressed. -/
theorem enter_command_selection_resolution (pool : List Char) (s : EditorState)
    (hmode : s.isCommandMode = true)
    (hidx : s.selectedIndex < s.filteredCommands.length)
    (hreg : ∀ c ∈ s.filteredCommands, c ∈ COMMANDS) :
    (handleKey pool (Key.chr '\r') s).1.input =
      (s.filteredCommands.getD s.selectedIndex { name := "", desc := "" }).name ∧
    (handleKey pool (Key.chr '\r') s).2 =
      some { input := (s.filteredCommands.getD s.selectedIndex { name := "", desc := "" }).name,
             isCommand := true } ∧
    (∀ t : EditorState, ∃ r : Resolution,
      (handleKey pool (Key.chr '\r') t).2 = some r ∧ r.isCommand = t.isCommandMode) := by
  have hmem : s.filteredCommands.getD s.selectedIndex { name := "", desc := "" } ∈
      s.filteredCommands := by
    rw [List.getD_eq_getElem s.filteredCommands _ hidx]
    exact List.getElem_mem hidx
  have hlower := commands_name_toLower _ (hreg _ hmem)
  refine ⟨?_, ?_, ?_⟩
  · rw [handleKey_enterCR]
    unfold enterStep
    rw [if_pos (by simp [hmode, hidx])]
    simp
  · rw [handleKey_enterCR]
    unfold enterStep
    rw [if_pos (by simp [hmode, hidx])]
    simp [hmode]
    simpa using hlower
  · intro t
    rw [handleKey_enterCR]
    unfold enterStep
    exact ⟨_, rfl, by simp⟩

/-- Witness for C9 at the state reached by typing "/h". -/
theorem enter_command_selection_resolution_witness :
    (handleKey ['C', 'A', 'R', 'T', 'E'] (Key.chr '\r')
        (run ['C', 'A', 'R', 'T', 'E'] [Key.chr '/', Key.chr 'h'] initState).1).1.input =
      ((run ['C', 'A', 'R', 'T', 'E'] [Key.chr '/', Key.chr 'h']
          initState).1.filteredCommands.getD
        (run ['C', 'A', 'R', 'T', 'E'] [Key.chr '/', Key.chr 'h'] initState).1.selectedIndex
        { name := "", desc := "" }).name ∧
    (handleKey ['C', 'A', 'R', 'T', 'E'] (Key.chr '\r')
        (run ['C', 'A', 'R', 'T', 'E'] [Key.chr '/', Key.chr 'h'] initState).1).2 =
      some
        { input :=
            ((run ['C', 'A', 'R', 'T', 'E'] [Key.chr '/', Key.chr 'h']
                initState).1.filteredCommands.getD
              (run ['C', 'A', 'R', 'T', 'E'] [Key.chr '/', Key.chr 'h']
                initState).1.selectedIndex
              { name := "", desc := "" }).name,
          isCommand := true } ∧
    (∀ t : EditorState, ∃ r : Resolution,
      (handleKey ['C', 'A', 'R', 'T', 'E'] (Key.chr '\r') t).2 = some r ∧
        r.isCommand = t.isCommandMode) :=
  enter_command_selection_resolution ['C', 'A', 'R', 'T', 'E']
    (run ['C', 'A', 'R', 'T', 'E'] [Key.chr '/', Key.chr 'h'] initState).1
    (by decide) (by decide) (by decide)

/-- A successfully found available index is unconsumed and in range. -/
theorem isLetterAvailable_some (letter : Char) (pool : List Char) (used : List Nat) (i : Nat)
    (h : isLetterAvailable letter pool used = some i) :
    i ∉ used ∧ i < pool.length := by
  unfold isLetterAvailable at h
  rw [Option.map_eq_some'] at h
  obtain ⟨p, hfind, hfst⟩ := h
  have hp := List.find?_some hfind
  have hmem := List.mem_of_find?_eq_some hfind
  subst hfst
  rw [Bool.and_eq_true] at hp
  constructor
  · intro hin
    have hc := hp.1
    simp only [List.contains, List.elem_eq_mem, Bool.not_eq_true',
      decide_eq_false_iff_not] at hc
    exact hc hin
  · exact List.fst_lt_of_mem_enum hmem

@[simp] theorem strPush_length (s : String) (c : Char) :
    (strPush s c).length = s.length + 1 := by
  show (s.data ++ [c]).length = s.data.length + 1
  simp

/-- One Word-mode letter keystroke preserves the pool-tracking invariant. -/
theorem charStep_alpha_preserves (pool : List Char) (c : Char) (s : EditorState)
    (halpha : c.isAlpha = true) (hmode : s.isCommandMode = false)
    (hlen : s.usedIndices.length = s.input.length) (hnd : s.usedIndices.Nodup)
    (hbound : ∀ i ∈ s.usedIndices, i < pool.length) :
    (charStep pool c s).isCommandMode = false ∧
    (charStep pool c s).usedIndices.length = (charStep pool c s).input.length ∧
    (charStep pool c s).usedIndices.Nodup ∧
    ∀ i ∈ (charStep pool c s).usedIndices, i < pool.length := by
  obtain ⟨-, -, -, -, -, -, -, h8⟩ := isAlpha_ne_special c halpha
  unfold charStep
  rw [if_neg (fun hc => h8 hc.1), if_neg (by simp [hmode]), if_pos halpha]
  cases hav : isLetterAvailable c pool s.usedIndices with
  | none =>
    simp only [hav]
    exact ⟨hmode, hlen, hnd, hbound⟩
  | some idx =>
    obtain ⟨hnotin, hlt⟩ := isLetterAvailable_some c pool s.usedIndices idx hav
    simp only [hav]
    refine ⟨by simp [hmode], by simp [hlen], ?_, ?_⟩
    · show (s.usedIndices ++ [idx]).Nodup
      rw [List.nodup_append]
      refine ⟨hnd, by simp, ?_⟩
      intro a ha hb
      simp at hb
      subst hb
      exact hnotin ha
    · show ∀ i ∈ s.usedIndices ++ [idx], i < pool.length
      intro i hi
      rw [List.mem_append] at hi
      rcases hi with hi | hi
      · exact hbound i hi
      · simp at hi
        subst hi
        exact hlt

/-- C1: for every pool and any keystroke sequence of letters drawn from
the pool, at every point the editor is still in Word mode, the size of the
consumed-index set equals the buffer length, the consumed set is
duplicate-free, and every consumed index is a pool index.  (The statement
holds for each such sequence, hence for every prefix of one.) -/
theorem word_mode_consumed_matches_buffer (pool : List Char) (ks : List Key)
    (hks : ∀ k ∈ ks, ∃ c, k = Key.chr c ∧ c.isAlpha = true ∧
      c.toUpper ∈ pool.map Char.toUpper) :
    (run pool ks initState).1.isCommandMode = false ∧
    (run pool ks initState).1.usedIndices.length = (run pool ks initState).1.input.length ∧
    (run pool ks initState).1.usedIndices.Nodup ∧
    ∀ i ∈ (run pool ks initState).1.usedIndices, i < pool.length := by
  suffices H : ∀ (ks : List Key) (s : EditorState),
      (∀ k ∈ ks, ∃ c, k = Key.chr c ∧ c.isAlpha = true) →
      s.isCommandMode = false →
      s.usedIndices.length = s.input.length → s.usedIndices.Nodup →
      (∀ i ∈ s.usedIndices, i < pool.length) →
      ((run pool ks s).1.isCommandMode = false ∧
       (run pool ks s).1.usedIndices.length = (run pool ks s).1.input.length ∧
       (run pool ks s).1.usedIndices.Nodup ∧
       ∀ i ∈ (run pool ks s).1.usedIndices, i < pool.length) by
    refine H ks initState ?_ rfl rfl (by simp [initState]) (by simp [initState])
    intro k hk
    obtain ⟨c, hkc, hca, -⟩ := hks k hk
    exact ⟨c, hkc, hca⟩
  intro ks
  induction ks with
  | nil =>
    intro s _ h1 h2 h3 h4
    exact ⟨h1, h2, h3, h4⟩
  | cons k ks ih =>
    intro s hkeys h1 h2 h3 h4
    obtain ⟨c, hkc, halpha⟩ := hkeys k (List.mem_cons_self k ks)
    subst hkc
    simp only [run, handleKey_chr_alpha pool c s halpha]
    have hstep := charStep_alpha_preserves pool c (resetCtrlC s) halpha (by simp [h1])
      (by simpa using h2) (by simpa using h3) (by simpa using h4)
    exact ih (charStep pool c (resetCtrlC s))
      (fun k hk => hkeys k (List.mem_cons_of_mem _ hk))
      hstep.1 hstep.2.1 hstep.2.2.1 hstep.2.2.2

/-- Witness for C1: pool "AB", typing "a". -/
theorem word_mode_consumed_matches_buffer_witness :
    (run ['A', 'B'] [Key.chr 'a'] initState).1.isCommandMode = false ∧
    (run ['A', 'B'] [Key.chr 'a'] initState).1.usedIndices.length =
      (run ['A', 'B'] [Key.chr 'a'] initState).1.input.length ∧
    (run ['A', 'B'] [Key.chr 'a'] initState).1.usedIndices.Nodup ∧
    ∀ i ∈ (run ['A', 'B'] [Key.chr 'a'] initState).1.usedIndices,
      i < (['A', 'B'] : List Char).length := by
  refine word_mode_consumed_matches_buffer ['A', 'B'] [Key.chr 'a'] ?_
  intro k hk
  simp at hk
  subst hk
  exact ⟨'a', rfl, by decide, by decide⟩

/-- Outside Command mode the filter is empty by definition. -/
theorem getFilteredCommands_false (input : String) : getFilteredCommands false input = [] := rfl

/-- A Word-mode state with an empty cached list satisfies the invariant. -/
theorem selInv_of_word (u : EditorState) (hmode : u.isCommandMode = false)
    (hcache : u.filteredCommands = []) : SelInv u :=
  ⟨fun hm => absurd hm (by simp [hmode]), fun _ => hcache, fun hne => absurd hcache hne⟩

/-- After `renderMenu` in Command mode with selection index 0, the
invariant holds. -/
theorem selInv_render_zero (u : EditorState) (hmode : u.isCommandMode = true)
    (hsel : u.selectedIndex = 0) : SelInv (renderMenuSt u) := by
  refine ⟨?_, ?_, ?_⟩
  · intro _
    simp [hmode]
  · intro hf
    rw [renderMenuSt_isCommandMode, hmode] at hf
    cases hf
  · intro hne
    rw [renderMenuSt_selectedIndex, hsel]
    exact List.length_pos.mpr hne

/-- After `renderMenu` in Command mode with a fresh cache and an in-bounds
selection index, the invariant holds. -/
theorem selInv_render_bounded (u : EditorState) (hmode : u.isCommandMode = true)
    (hfresh : u.filteredCommands = getFilteredCommands true u.input)
    (hidx : u.selectedIndex < u.filteredCommands.length) : SelInv (renderMenuSt u) := by
  refine ⟨?_, ?_, ?_⟩
  · intro _
    simp [hmode]
  · intro hf
    rw [renderMenuSt_isCommandMode, hmode] at hf
    cases hf
  · intro hne
    rw [renderMenuSt_selectedIndex]
    have hsame : (renderMenuSt u).filteredCommands = u.filteredCommands := by
      rw [renderMenuSt_filteredCommands, hmode]
      exact hfresh.symm
    rw [hsame]
    exact hidx

theorem selInv_resetCtrlC (s : EditorState) (h : SelInv s) : SelInv (resetCtrlC s) := by
  unfold resetCtrlC
  split
  · refine ⟨fun hx => ?_, fun hx => ?_, fun hx => ?_⟩
    · simpa using h.1 (by simpa using hx)
    · simpa using h.2.1 (by simpa using hx)
    · simpa using h.2.2 (by simpa using hx)
  · exact h

theorem selInv_upStep (t : EditorState) (h : SelInv t) : SelInv (upStep t) := by
  unfold upStep
  split
  case isTrue hc =>
    obtain ⟨hm, hlen⟩ := hc
    have hfresh := h.1 hm
    have hidx : t.selectedIndex < t.filteredCommands.length :=
      h.2.2 (List.length_pos.mp hlen)
    apply selInv_render_bounded
    · exact hm
    · exact hfresh
    · show (if t.selectedIndex = 0 then t.filteredCommands.length - 1
          else t.selectedIndex - 1) < t.filteredCommands.length
      split <;> omega
  case isFalse => exact h

theorem selInv_downStep (t : EditorState) (h : SelInv t) : SelInv (downStep t) := by
  unfold downStep
  split
  case isTrue hc =>
    obtain ⟨hm, hlen⟩ := hc
    have hfresh := h.1 hm
    have hidx : t.selectedIndex < t.filteredCommands.length :=
      h.2.2 (List.length_pos.mp hlen)
    apply selInv_render_bounded
    · exact hm
    · exact hfresh
    · show (if t.filteredCommands.length - 1 ≤ t.selectedIndex then 0
          else t.selectedIndex + 1) < t.filteredCommands.length
      split <;> omega
  case isFalse => exact h

theorem selInv_tabStep (t : EditorState) (h : SelInv t) : SelInv (tabStep t) := by
  unfold tabStep
  split
  case isTrue hc =>
    apply selInv_render_zero
    · simpa using hc.1
    · rfl
  case isFalse => exact h

theorem selInv_escapeStep (t : EditorState) : SelInv (escapeStep t) :=
  selInv_of_word _ (by simp) (by simp)

theorem selInv_ctrlCState (s : EditorState) (h : SelInv s) :
    SelInv (if s.ctrlCShown then s else { clearMenuSt s with ctrlCShown := true }) := by
  split
  · exact h
  · refine ⟨fun hx => ?_, fun hx => ?_, fun hx => ?_⟩
    · simpa using h.1 (by simpa using hx)
    · simpa using h.2.1 (by simpa using hx)
    · simpa using h.2.2 (by simpa using hx)

theorem selInv_charStep (pool : List Char) (c : Char) (t : EditorState) (h : SelInv t) :
    SelInv (charStep pool c t) := by
  unfold charStep
  split
  case isTrue hc =>
    apply selInv_render_zero
    · rfl
    · rfl
  case isFalse hc =>
    split
    case isTrue hcm =>
      apply selInv_render_zero
      · simpa using hcm
      · rfl
    case isFalse hcm =>
      have hmode : t.isCommandMode = false := by
        cases hb : t.isCommandMode
        · rfl
        · exact absurd hb hcm
      split
      · cases hav : isLetterAvailable c pool t.usedIndices with
        | none =>
          simp only [hav]
          exact h
        | some idx =>
          simp only [hav]
          refine ⟨fun hm => ?_, fun _ => ?_, fun hne => ?_⟩
          · simp [hmode] at hm
          · simpa using h.2.1 hmode
          · have hc2 := h.2.1 hmode
            simp [hc2] at hne
      · exact h

theorem selInv_backspaceStep (pool : List Char) (t : EditorState) (h : SelInv t) :
    SelInv (backspaceStep pool t) := by
  by_cases hemp : t.input = ""
  · rw [backspaceStep_empty pool t hemp]
    exact h
  · have hlen := strLength_pos t.input hemp
    simp only [backspaceStep, clearMenuSt_input, clearMenuSt_isCommandMode,
      clearMenuSt_usedIndices, clearMenuSt_filteredCommands]
    rw [if_pos hlen]
    by_cases hex : strDropRight1 t.input = "" ∨ strStartsWith (strDropRight1 t.input) "/" = false
    · simp only [if_pos hex]
      rw [if_neg (by simp)]
      exact selInv_of_word _ (by simp) (by simp)
    · simp only [if_neg hex]
      cases hb : t.isCommandMode
      · rw [if_neg (by simp [hb])]
        exact selInv_of_word _ (by simp [hb]) (by simp [h.2.1 hb])
      · rw [if_pos (by simp [hb])]
        apply selInv_render_zero
        · simp [hb]
        · rfl

theorem enterStep_bound (t : EditorState) (h : SelInv t) :
    (enterStep t).1.filteredCommands ≠ [] →
      (enterStep t).1.selectedIndex < (enterStep t).1.filteredCommands.length := by
  intro hne
  have hne2 : t.filteredCommands ≠ [] := by simpa using hne
  simpa using h.2.2 hne2

/-- One keystroke preserves the selection invariant (when not resolving)
and preserves the in-bounds property of the resulting state in any case. -/
theorem handleKey_selInv (pool : List Char) (k : Key) (s : EditorState) (h : SelInv s) :
    ((handleKey pool k s).1.filteredCommands ≠ [] →
      (handleKey pool k s).1.selectedIndex < (handleKey pool k s).1.filteredCommands.length) ∧
    ((handleKey pool k s).2 = none → SelInv (handleKey pool k s).1) := by
  cases k with
  | up =>
    rw [handleKey_up]
    have hstep := selInv_upStep _ (selInv_resetCtrlC s h)
    exact ⟨hstep.2.2, fun _ => hstep⟩
  | down =>
    rw [handleKey_down]
    have hstep := selInv_downStep _ (selInv_resetCtrlC s h)
    exact ⟨hstep.2.2, fun _ => hstep⟩
  | chr c =>
    by_cases h1 : c = Char.ofNat 3
    · subst h1
      rw [handleKey_ctrlC]
      have hstep := selInv_ctrlCState s h
      exact ⟨hstep.2.2, fun _ => hstep⟩
    · by_cases h2 : c = '\t'
      · subst h2
        rw [handleKey_tab]
        have hstep := selInv_tabStep _ (selInv_resetCtrlC s h)
        exact ⟨hstep.2.2, fun _ => hstep⟩
      · by_cases h3 : c = '\r'
        · subst h3
          rw [handleKey_enterCR]
          refine ⟨enterStep_bound _ (selInv_resetCtrlC s h), fun hnone => ?_⟩
          simp [enterStep] at hnone
        · by_cases h4 : c = '\n'
          · subst h4
            rw [handleKey_enterLF]
            refine ⟨enterStep_bound _ (selInv_resetCtrlC s h), fun hnone => ?_⟩
            simp [enterStep] at hnone
          · by_cases h5 : c = Char.ofNat 0x7F
            · subst h5
              rw [handleKey_backspace]
              have hstep := selInv_backspaceStep pool _ (selInv_resetCtrlC s h)
              exact ⟨hstep.2.2, fun _ => hstep⟩
            · by_cases h6 : c = Char.ofNat 8
              · subst h6
                rw [handleKey_backspaceBS]
                have hstep := selInv_backspaceStep pool _ (selInv_resetCtrlC s h)
                exact ⟨hstep.2.2, fun _ => hstep⟩
              · by_cases h7 : c = Char.ofNat 0x1B
                · subst h7
                  rw [handleKey_escape]
                  have hstep := selInv_escapeStep (resetCtrlC s)
                  exact ⟨hstep.2.2, fun _ => hstep⟩
                · rw [handleKey_chr pool c s h1 h2 h3 h4 h5 h6 h7]
                  have hstep := selInv_charStep pool c _ (selInv_resetCtrlC s h)
                  exact ⟨hstep.2.2, fun _ => hstep⟩

/-- The in-bounds property holds after any keystroke sequence from a
state satisfying the invariant. -/
theorem run_selInv (pool : List Char) (ks : List Key) (s : EditorState) (h : SelInv s) :
    (run pool ks s).1.filteredCommands ≠ [] →
      (run pool ks s).1.selectedIndex < (run pool ks s).1.filteredCommands.length := by
  induction ks generalizing s with
  | nil => exact h.2.2
  | cons k ks ih =>
    have hk := handleKey_selInv pool k s h
    simp only [run]
    cases hkey : handleKey pool k s with
    | mk s1 r =>
      rw [hkey] at hk
      cases r with
      | none => exact ih s1 (hk.2 rfl)
      | some r1 => exact hk.1

/-- C10 (implicit): after every processed keystroke from the initial
state, a nonempty cached filtered list always has the selection index
strictly inside it; buffer-changing keys (printable characters in Command
mode, backspace, Tab) reset the index to 0 and the arrow keys wrap it
within the cached list length. -/
theorem selection_index_in_bounds (pool : List Char) (ks : List Key) :
    ((run pool ks initState).1.filteredCommands ≠ [] →
      (run pool ks initState).1.selectedIndex <
        (run pool ks initState).1.filteredCommands.length) ∧
    (∀ s : EditorState, ∀ c : Char, s.isCommandMode = true →
      (charStep pool c s).selectedIndex = 0) ∧
    (∀ s : EditorState, 0 < s.input.length → (backspaceStep pool s).selectedIndex = 0) ∧
    (∀ s : EditorState, s.isCommandMode = true → s.selectedIndex < s.filteredCommands.length →
      (tabStep s).selectedIndex = 0) ∧
    (∀ s : EditorState, s.isCommandMode = true → 0 < s.filteredCommands.length →
      (upStep s).selectedIndex =
        (if s.selectedIndex = 0 then s.filteredCommands.length - 1
         else s.selectedIndex - 1) ∧
      (downStep s).selectedIndex =
        (if s.filteredCommands.length - 1 ≤ s.selectedIndex then 0
         else s.selectedIndex + 1)) := by
  refine ⟨run_selInv pool ks initState (selInv_of_word initState rfl rfl), ?_, ?_, ?_, ?_⟩
  · intro s c hmode
    unfold charStep
    by_cases hc : c = '/' ∧ s.input = ""
    · rw [if_pos hc]
      simp
    · rw [if_neg hc, if_pos hmode]
      simp
  · intro s hlen
    exact backspaceStep_selectedIndex pool s hlen
  · intro s hmode hidx
    unfold tabStep
    rw [if_pos (by simp [hmode, hidx])]
    simp
  · intro s hmode hlen
    constructor
    · unfold upStep
      rw [if_pos (by simp [hmode, hlen])]
      simp
    · unfold downStep
      rw [if_pos (by simp [hmode, hlen])]
      simp

/-- Witness for C10: a Command-mode character resets the index to 0. -/
theorem selection_index_in_bounds_witness :
    (charStep [] 'h' (run [] [Key.chr '/'] initState).1).selectedIndex = 0 :=
  (selection_index_in_bounds [] []).2.1 (run [] [Key.chr '/'] initState).1 'h' (by decide)

/-- Pointwise effect of the line-clearing fold. -/
theorem foldl_clear_apply (l : List Nat) (sc : Screen) (j : Nat) :
    (l.foldl (fun acc i => setLine i "" acc) sc) j = if j ∈ l then "" else sc j := by
  induction l generalizing sc with
  | nil => simp
  | cons a l ih =>
    simp only [List.foldl_cons]
    rw [ih]
    by_cases hj : j ∈ l
    · simp [hj]
    · rw [if_neg hj]
      simp only [setLine]
      by_cases ha : j = a
      · subst ha
        simp
      · simp [ha, hj]

/-- Pointwise effect of `clearBelow`: lines `0..n-1` become blank,
everything else is untouched. -/
theorem clearBelow_apply (n : Nat) (sc : Screen) (j : Nat) :
    clearBelow n sc j = if j < n then "" else sc j := by
  rw [clearBelow, foldl_clear_apply]
  simp [List.mem_range]

/-- Pointwise effect of the `renderMenu` write loop: entry `k` of the
list lands on line `i + k`, everything else is untouched. -/
theorem writeMenuLines_apply (entries : List Command) (i : Nat) (sc : Screen) (j : Nat) :
    writeMenuLines entries i sc j =
      if i ≤ j ∧ j < i + entries.length then
        menuLineText (entries.getD (j - i) { name := "", desc := "" })
      else sc j := by
  induction entries generalizing i sc with
  | nil =>
    have hcond : ¬(i ≤ j ∧ j < i + ([] : List Command).length) := by
      simp only [List.length_nil, Nat.add_zero]
      omega
    rw [writeMenuLines, if_neg hcond]
  | cons e rest ih =>
    rw [writeMenuLines, ih]
    simp only [List.length_cons]
    by_cases hji : j = i
    · subst hji
      rw [if_neg (by omega), if_pos (by omega)]
      simp [setLine, Nat.sub_self]
    · by_cases hin : i + 1 ≤ j ∧ j < i + 1 + rest.length
      · rw [if_pos hin, if_pos (by omega)]
        have hji2 : j - i = (j - (i + 1)) + 1 := by omega
        rw [hji2]
        simp
      · rw [if_neg hin, if_neg (by omega)]
        simp [setLine, hji]

/-- C6: after every `renderMenu` call the recorded rendered-line count
equals the number of filtered entries written (0 when the filtered list
is empty, and line `j` below the cursor holds the text of entry `j` for
every `j` under the count); a subsequent `clearMenu` resets the recorded
count to 0 and erases exactly that many lines — every line under the
count becomes blank and every other line is untouched. -/
theorem renderMenu_clearMenu_line_accounting (s : EditorState) (sc : Screen) :
    (renderMenuSt s).renderedMenuLines = (getFilteredCommands s.isCommandMode s.input).length ∧
    (getFilteredCommands s.isCommandMode s.input = [] →
      (renderMenuSt s).renderedMenuLines = 0) ∧
    (∀ j, j < (getFilteredCommands s.isCommandMode s.input).length →
      renderMenuScr s sc j =
        menuLineText ((getFilteredCommands s.isCommandMode s.input).getD j
          { name := "", desc := "" })) ∧
    (clearMenuSt (renderMenuSt s)).renderedMenuLines = 0 ∧
    (∀ j, j < (renderMenuSt s).renderedMenuLines →
      clearMenuScr (renderMenuSt s) (renderMenuScr s sc) j = "") ∧
    (∀ j, (renderMenuSt s).renderedMenuLines ≤ j →
      clearMenuScr (renderMenuSt s) (renderMenuScr s sc) j = renderMenuScr s sc j) := by
  refine ⟨by simp, ?_, ?_, by simp, ?_, ?_⟩
  · intro h
    simp [h]
  · intro j hj
    unfold renderMenuScr
    cases hf : getFilteredCommands s.isCommandMode s.input with
    | nil =>
      rw [hf] at hj
      simp at hj
    | cons a l =>
      rw [hf] at hj
      simp only [hf, List.isEmpty_cons, Bool.false_eq_true, if_false]
      rw [writeMenuLines_apply]
      rw [if_pos ⟨Nat.zero_le j, by simpa using hj⟩]
      simp
  · intro j hj
    unfold clearMenuScr
    split
    case isTrue h0 =>
      rw [h0] at hj
      exact absurd hj (by omega)
    case isFalse h0 =>
      rw [clearBelow_apply, if_pos hj]
  · intro j hj
    unfold clearMenuScr
    split
    case isTrue h0 => rfl
    case isFalse h0 =>
      rw [clearBelow_apply, if_neg (by omega)]

/-- Witness for C6: with the full menu rendered over a dirty screen, the
first line below the cursor is blank after `clearMenu`. -/
theorem renderMenu_clearMenu_line_accounting_witness :
    clearMenuScr (renderMenuSt { initState with isCommandMode := true, input := "/" })
        (renderMenuScr { initState with isCommandMode := true, input := "/" }
          (fun j => "residue")) 0 = "" :=
  (renderMenu_clearMenu_line_accounting
      { initState with isCommandMode := true, input := "/" }
      (fun j => "residue")).2.2.2.2.1 0 (by decide)
